import Mathlib

/-!
Verification development for the claude-swarm repository.

The development shallowly embeds the usage-limit pattern matcher
(internal/usagelimit/parser.go), the per-worker watchdog loop
(internal/monitor/monitor.go) and the CLI health/fallback selector
(cmd package: parseWorker, cliCmdFor, normalizeGemini, firstAvailableCLI).

Modelling conventions:
* Strings are processed as `List Char`.  Go regexp matching with the `(?i)`
  flag folds runes via unicode.SimpleFold; for the ASCII-lowercase literals
  used by the three patterns this is exactly ASCII lowercasing plus the two
  special folds U+212A (Kelvin sign, folds to k) and U+017F (long s, folds
  to s), which `foldChar` reproduces.
* Go regexp `.` matches any rune except a newline; the `.{0,60}` gaps are
  embedded as an at-most-60-character newline-free segment.
* Machine integers: strconv.Atoi clamps to the int64 range on overflow and
  the code discards the error, which `atoi64` reproduces; the relative
  duration computation `hours*3600 + mins*60` is 64-bit wrapping signed
  arithmetic, reproduced by `wrap64`.  The monitor's deadline arithmetic
  (`waitSecs + cfg.ResumeBufferSec`, `time.Duration(totalSecs) *
  time.Second`, and Time.Add on the monotonic reading) is likewise
  wrapping int64 and is reproduced with `wrap64`.  Inside ExtractWaitSecs
  the UTC-target computation is modelled as exact integer nanosecond
  arithmetic, which agrees with Go for all valid wall-clock inputs (the
  hypotheses under which the UTC claim is stated).
* time.Now().UTC() inside ExtractWaitSecs is represented by `tod`, the
  number of nanoseconds elapsed since the current UTC midnight: Go computes
  time.Date(now.Year, now.Month, now.Day, h, min, 0, 0, UTC), and under
  Go calendar normalization that target minus now depends only on `tod`
  and the parsed hour/minute, so year/month/day cancel out of the delta.
* The watchdog goroutine is embedded as a deterministic step machine over
  an explicit state; each step consumes one `Input` record describing what
  the environment (clock, cancellation signal, tmux) would answer at the
  next interaction point of the loop body.
-/

namespace Swarm

/-! ## Character folding and segment matching (the regex engine fragment) -/

/-- Case folding as performed by Go regexp `(?i)` matching against the
ASCII-lowercase pattern literals of parser.go: ASCII lowercasing plus the
two non-ASCII runes whose simple-fold orbits contain an ASCII letter that
occurs in the patterns (U+212A Kelvin sign and U+017F long s). -/
def foldChar (c : Char) : Char :=
  if c = Char.ofNat 0x212A then 'k'
  else if c = Char.ofNat 0x17F then 's'
  else c.toLower

/-- Fold a whole rune sequence. -/
def fold (s : List Char) : List Char := s.map foldChar

/-- Does the pattern (first argument) occur at the very front of the text? -/
def leadsWith : List Char → List Char → Bool
  | [], _ => true
  | _ :: _, [] => false
  | p :: ps, c :: cs => p == c && leadsWith ps cs

/-- Does the pattern occur anywhere in the text (regex alternative with no
gap, e.g. `exceeded your usage limit`)? -/
def containsPat (pat : List Char) : List Char → Bool
  | [] => leadsWith pat []
  | c :: rest => leadsWith pat (c :: rest) || containsPat pat rest

/-- After skipping at most `k` non-newline characters, does `p2` occur?
This is the embedding of the regex fragment `.{0,k}p2` (Go `.` does not
match a newline). -/
def gapThen (p2 : List Char) : Nat → List Char → Bool
  | 0, s => leadsWith p2 s
  | k + 1, s =>
    leadsWith p2 s ||
      match s with
      | [] => false
      | c :: rest => c != '\n' && gapThen p2 k rest

/-- Does `p1`, then at most `k` non-newline characters, then `p2` occur
anywhere in the text (regex `p1.{0,k}p2` as a whole-string search)? -/
def seqMatch (p1 p2 : List Char) (k : Nat) : List Char → Bool
  | [] => false
  | c :: rest =>
    (leadsWith p1 (c :: rest) && gapThen p2 k ((c :: rest).drop p1.length)) ||
      seqMatch p1 p2 k rest

/-! ## Pattern matcher (internal/usagelimit/parser.go) -/

/-- internal/usagelimit/parser.go, HasError: reports whether text contains
an API usage-limit message.  Source regex:
errorRe = (?i)(exceeded your usage limit|usage limits.{0,60}try again after|rate limit.{0,60}retry after). -/
def HasError (text : String) : Bool :=
  let t := fold text.toList
  containsPat "exceeded your usage limit".toList t ||
  seqMatch "usage limits".toList "try again after".toList 60 t ||
  seqMatch "rate limit".toList "retry after".toList 60 t

/-- Numeric value of a run of decimal digit characters (most significant
first), as accumulated by strconv.Atoi before any range check. -/
def digitsVal (ds : List Char) : Nat :=
  ds.foldl (fun a c => a * 10 + (c.toNat - 48)) 0

/-- Largest int64 value. -/
def intMax64 : Int := 2 ^ 63 - 1

/-- strconv.Atoi on a nonempty decimal digit string, with the error
discarded as the source does (`hours, _ = strconv.Atoi(m[1])`): on
overflow ParseInt returns the int64 range bound, so the observed value is
the parsed value clamped to intMax64. -/
def atoi64 (ds : List Char) : Int :=
  let v : Int := digitsVal ds
  if v > intMax64 then intMax64 else v

/-- Reduce an unbounded integer to the int64 it denotes under two's
complement wraparound. -/
def wrap64 (n : Int) : Int := (n + 2 ^ 63) % 2 ^ 64 - 2 ^ 63

/-- Try to match utcTimeRe = `(?i)after (\d+):(\d+) UTC` at the front of
the (already folded) text, returning the two digit captures.  Because a
digit can never match the following literal, the greedy `\d+` groups can
only capture the full maximal digit runs. -/
def utcAt (s : List Char) : Option (List Char × List Char) :=
  if leadsWith "after ".toList s then
    let r1 := s.drop 6
    let ds1 := r1.takeWhile Char.isDigit
    let r2 := r1.drop ds1.length
    if ds1 != [] && leadsWith ":".toList r2 then
      let r3 := r2.drop 1
      let ds2 := r3.takeWhile Char.isDigit
      if ds2 != [] && leadsWith " utc".toList (r3.drop ds2.length) then
        some (ds1, ds2)
      else none
    else none
  else none

/-- Leftmost match of utcTimeRe (FindStringSubmatch semantics). -/
def findUTC : List Char → Option (List Char × List Char)
  | [] => none
  | c :: rest =>
    match utcAt (c :: rest) with
    | some r => some r
    | none => findUTC rest

/-- Try to match hoursRe = `(?i)in (\d+) hours?` at the front of the
(already folded) text, returning the digit capture. -/
def hoursAt (s : List Char) : Option (List Char) :=
  if leadsWith "in ".toList s then
    let rest := s.drop 3
    let ds := rest.takeWhile Char.isDigit
    if ds != [] && leadsWith " hour".toList (rest.drop ds.length) then some ds
    else none
  else none

/-- Leftmost match of hoursRe. -/
def findHours : List Char → Option (List Char)
  | [] => none
  | c :: rest =>
    match hoursAt (c :: rest) with
    | some r => some r
    | none => findHours rest

/-- Try to match minsRe = `(?i)(\d+) minutes?` at the front of the
(already folded) text. -/
def minsAt (s : List Char) : Option (List Char) :=
  let ds := s.takeWhile Char.isDigit
  if ds != [] && leadsWith " minute".toList (s.drop ds.length) then some ds
  else none

/-- Leftmost match of minsRe. -/
def findMins : List Char → Option (List Char)
  | [] => none
  | c :: rest =>
    match minsAt (c :: rest) with
    | some r => some r
    | none => findMins rest

def nsPerSec : Nat := 1000000000

def nsPerDay : Nat := 86400 * nsPerSec

/-- The primary strategy of ExtractWaitSecs (parser.go lines 27-40): on an
`after HH:MM UTC` match, the wall-clock delta in whole seconds to the next
occurrence of that time of day, if positive.  `tod` is time.Now().UTC()
expressed as nanoseconds since today's UTC midnight; int(d.Seconds()) on a
positive duration is division by 10^9 rounded down. -/
def utcWaitSecs (tod : Nat) (t : List Char) : Option Int :=
  match findUTC t with
  | some (dsH, dsM) =>
    let targetNs := (digitsVal dsH * 3600 + digitsVal dsM * 60) * nsPerSec
    let target := if targetNs > tod then targetNs else targetNs + nsPerDay
    let secs := (target - tod) / nsPerSec
    if secs > 0 then some (Int.ofNat secs) else none
  | none => none

/-- The local `hours` of ExtractWaitSecs: 0, overwritten by the Atoi value
of the leftmost hoursRe capture when one exists. -/
def hoursVal (t : List Char) : Int :=
  match findHours t with
  | some ds => atoi64 ds
  | none => 0

/-- The local `mins` of ExtractWaitSecs: only consulted (and only
overwritten) when `hours > 0`. -/
def minsVal (t : List Char) : Int :=
  if hoursVal t > 0 then
    match findMins t with
    | some ds => atoi64 ds
    | none => 0
  else 0

/-- The fallback block of ExtractWaitSecs (parser.go lines 42-56):
`in X hours [Y minutes]`, else the 3600 default.  Arithmetic is Go int64
arithmetic: Atoi values clamped by atoi64, the sum wrapped by wrap64. -/
def relWaitSecs (t : List Char) : Int :=
  if hoursVal t > 0 || minsVal t > 0 then
    wrap64 (hoursVal t * 3600 + minsVal t * 60)
  else 3600

/-- internal/usagelimit/parser.go, ExtractWaitSecs: parses the wait
duration from error text and returns seconds.  Priority: UTC timestamp →
`in X hours Y minutes` → 3600 fallback. -/
def ExtractWaitSecs (tod : Nat) (text : String) : Int :=
  let t := fold text.toList
  match utcWaitSecs tod t with
  | some secs => secs
  | none => relWaitSecs t

/-! ## Configuration (internal/config/config.go), restricted to the fields
the monitor and the cmd helpers read. -/

structure Config where
  monitorInterval : Nat
  resumeBufferSec : Int
  cliType : String
  cliFlags : String
deriving DecidableEq

/-! ## cmd package helpers: parseWorker, cliCmdFor, the gemini fallback
selector (normalizeGemini / firstAvailableCLI / containsCLIType). -/

/-- Split a rune list at the first colon, as strings.Index does. -/
def splitFirstColon : List Char → Option (List Char × List Char)
  | [] => none
  | c :: rest =>
    if c = ':' then some ([], rest)
    else
      match splitFirstColon rest with
      | some (a, b) => some (c :: a, b)
      | none => none

/-- cmd: parseWorker splits "gemini:gemini-2.0-flash" into
("gemini", "gemini-2.0-flash"); a plain "claude" returns ("claude", ""). -/
def parseWorker (s : String) : String × String :=
  match splitFirstColon s.toList with
  | some (a, b) => (String.mk a, String.mk b)
  | none => (s, "")

/-- cmd: cliCmdFor returns the full CLI invocation for a worker, including
model and extra flags. -/
def cliCmdFor (cfg : Config) (worker : String) : String :=
  let p := parseWorker worker
  let cmd := p.1
  let cmd := if p.2 != "" then cmd ++ " --model " ++ p.2 else cmd
  if cfg.cliFlags != "" then cmd ++ " " ++ cfg.cliFlags else cmd

/-- cmd: containsCLIType reports whether some worker entry names the given
CLI type (comparing the part before any colon). -/
def containsCLIType (workers : List String) (cliType : String) : Bool :=
  workers.any (fun w => (parseWorker w).1 == cliType)

/-- cmd: firstAvailableCLI returns the first of the given CLI names that
exists on the executable search path; `onPath` stands for the external
exec.LookPath probe (commandExists). -/
def firstAvailableCLI (onPath : String → Bool) (cliTypes : List String) :
    Option String :=
  cliTypes.find? onPath

/-- cmd: normalizeGemini.  `geminiHealthy` stands for the external
geminiHealthCheck probe (a bounded `gemini --version` run) and `onPath`
for commandExists.  When gemini workers are configured and the probe
fails, every worker whose CLI name is gemini (model variants included) is
replaced by the first of claude, codex found on the search path; when
neither is found the list is returned unchanged (a warning is printed). -/
def normalizeGemini (geminiHealthy : Bool) (onPath : String → Bool)
    (workers : List String) : List String :=
  if !containsCLIType workers "gemini" then workers
  else if geminiHealthy then workers
  else
    match firstAvailableCLI onPath ["claude", "codex"] with
    | none => workers
    | some fb =>
      workers.map (fun w => if (parseWorker w).1 == "gemini" then fb else w)

/-! ## Worker watchdog (internal/monitor/monitor.go, Watch) -/

/-- Go int64 division truncates toward zero; both uses divide by a
positive constant. -/
def goDiv (a b : Int) : Int :=
  if 0 ≤ a then (Int.ofNat (a.toNat / b.toNat))
  else -(Int.ofNat ((-a).toNat / b.toNat))

/-- Go int64 remainder (sign of the dividend). -/
def goMod (a b : Int) : Int := a - b * goDiv a b

/-- The pane title set while waiting: fmt.Sprintf("worker-%d [wait %dh%dm]",
workerNum, displayH, displayM).  (The related window-based variant of
monitor.go formats the waiting label as "w%d[wait %dh%dm]" instead but is
otherwise identical in every claim-relevant respect.) -/
def waitTitle (n : Nat) (h m : Int) : String :=
  "worker-" ++ toString n ++ " [wait " ++ toString h ++ "h" ++ toString m ++ "m]"

/-- Control position of the Watch loop between two environment
interactions. -/
inductive Phase where
  | polling
  | waiting (deadline : Int)
  | halted
deriving DecidableEq

/-- Watchdog state: the control position plus the `detected` flag of
Watch. -/
structure WState where
  phase : Phase
  detected : Bool
deriving DecidableEq

/-- What the environment answers at the next interaction point of the
loop body: whether ctx.Done has fired at the pending select, what
tmux.CapturePane would return (none = error, pane gone), the current clock
reading `now` in nanoseconds since the epoch, the corresponding
nanoseconds since UTC midnight `tod` for ExtractWaitSecs, and whether
tmux.HasSession still sees the session. -/
structure Input where
  cancelled : Bool
  capture : Option String
  now : Int
  tod : Nat
  sessionAlive : Bool
deriving DecidableEq

/-- Observable side effects of one step of the loop: the detection log
line with its displayed hour/minute split, pane-title updates, the resume
log line and the resume keystroke. -/
inductive Action where
  | logDetect (worker : Nat) (waitH waitM : Int)
  | setTitle (title : String)
  | logResume (worker : Nat)
  | sendKeys (keys : String)
deriving DecidableEq

/-- One step of monitor.Watch between environment interactions.

At `polling` this is one iteration of the outer `for` loop: the
interval select (cancellation checkpoint), the capture (an error halts
the watchdog), and on a fresh usage-limit hit the detection side effects
— log line, waiting title, deadline `now + (waitSecs + ResumeBufferSec)
seconds` — entering the 5-second wait loop.  All of the deadline
arithmetic is Go int64 arithmetic: the `totalSecs` sum, the
`time.Duration(totalSecs) * time.Second` product and the Time.Add on the
monotonic clock reading all wrap on 64-bit overflow, hence the wrap64
applications.

At `waiting d` this is one iteration of the inner wait loop: if `now`
is still before the deadline, a 5-second select (cancellation
checkpoint); once the deadline has passed, the session liveness check
(a dead session halts the watchdog) and then the resume side effects:
the resume log line, send-keys of `CLIType + " --continue"`, restoring
the plain "worker-N" title and clearing `detected`. -/
def step (cfg : Config) (workerNum : Nat) (s : WState) (i : Input) :
    WState × List Action :=
  match s with
  | ⟨Phase.halted, det⟩ => (⟨Phase.halted, det⟩, [])
  | ⟨Phase.polling, det⟩ =>
    if i.cancelled then (⟨Phase.halted, det⟩, [])
    else
      match i.capture with
      | none => (⟨Phase.halted, det⟩, [])
      | some content =>
        if !det && HasError content then
          let waitSecs := ExtractWaitSecs i.tod content
          let totalSecs := wrap64 (waitSecs + cfg.resumeBufferSec)
          let dH := goDiv totalSecs 3600
          let dM := goDiv (goMod totalSecs 3600) 60
          (⟨Phase.waiting (wrap64 (i.now + wrap64 (totalSecs * 1000000000))),
             true⟩,
           [Action.logDetect workerNum dH dM,
            Action.setTitle (waitTitle workerNum dH dM)])
        else (⟨Phase.polling, det⟩, [])
  | ⟨Phase.waiting d, det⟩ =>
    if i.now < d then
      if i.cancelled then (⟨Phase.halted, det⟩, [])
      else (⟨Phase.waiting d, det⟩, [])
    else if !i.sessionAlive then (⟨Phase.halted, det⟩, [])
    else
      (⟨Phase.polling, false⟩,
       [Action.logResume workerNum,
        Action.sendKeys (cfg.cliType ++ " --continue"),
        Action.setTitle ("worker-" ++ toString workerNum)])

/-- Run the watchdog over a whole sequence of environment answers,
collecting all side effects in order. -/
def run (cfg : Config) (n : Nat) : WState → List Input → List Action
  | _, [] => []
  | s, i :: rest =>
    (step cfg n s i).2 ++ run cfg n (step cfg n s i).1 rest

/-- Cancellation is observed when ctx.Done fires at one of the two
suspension points: the interval select at the top of the outer loop, or
the 5-second select taken while the deadline is still ahead. -/
def cancelObserved (s : WState) (i : Input) : Prop :=
  i.cancelled = true ∧
    (s.phase = Phase.polling ∨ ∃ d, s.phase = Phase.waiting d ∧ i.now < d)

/-! ## Spec-side definitions, for comparison against the embedded code.
Each of the following follows the words of a spec claim, not the source;
they exist only so that refinement or divergence can be stated. -/

/-- The detection condition in the words matching the code: the folded
text contains one of the three trigger patterns, where the two
two-part patterns allow at most 60 characters between the parts, none of
them a newline, and the middle phrase is the plural `usage limits`. -/
def usageLimitSpec (text : String) : Prop :=
  let t := fold text.toList
  (∃ l r, t = l ++ "exceeded your usage limit".toList ++ r) ∨
  (∃ l m r,
      t = l ++ "usage limits".toList ++ m ++ "try again after".toList ++ r ∧
      m.length ≤ 60 ∧ ∀ c ∈ m, c ≠ '\n') ∨
  (∃ l m r,
      t = l ++ "rate limit".toList ++ m ++ "retry after".toList ++ r ∧
      m.length ≤ 60 ∧ ∀ c ∈ m, c ≠ '\n')

/-- The detection condition exactly as claim C1 words it: the singular
phrase "usage limit", and a gap of at most 60 arbitrary characters. -/
def claimTrigger (text : String) : Prop :=
  let t := fold text.toList
  (∃ l r, t = l ++ "exceeded your usage limit".toList ++ r) ∨
  (∃ l m r,
      t = l ++ "usage limit".toList ++ m ++ "try again after".toList ++ r ∧
      m.length ≤ 60) ∨
  (∃ l m r,
      t = l ++ "rate limit".toList ++ m ++ "retry after".toList ++ r ∧
      m.length ≤ 60)

/-- Claim C4's description of the absolute strategy: the floor of the
number of seconds from now (tod nanoseconds after UTC midnight) to the
next future occurrence of the wall-clock time h:min UTC — today if that
time is still ahead, otherwise the same time tomorrow. -/
def nextOccurrenceSecs (h min tod : Nat) : Nat :=
  let targetNs := (h * 3600 + min * 60) * nsPerSec
  if targetNs > tod then (targetNs - tod) / nsPerSec
  else (targetNs + nsPerDay - tod) / nsPerSec

/-- The minutes value the relative strategy can add: the leftmost
`Y minutes` match of the folded text, 0 when absent. -/
def minutesPart (text : String) : Nat :=
  match findMins (fold text.toList) with
  | some ds => digitsVal ds
  | none => 0

/-- The fallback selector exactly as claim C9 words it: the replacement
must be the first other configured-but-unrelated assistant type, in the
fixed preference order, found on the executable search path — i.e. a type
that itself appears in the configured worker list. -/
def claimNormalizeGemini (geminiHealthy : Bool) (onPath : String → Bool)
    (workers : List String) : List String :=
  if !containsCLIType workers "gemini" then workers
  else if geminiHealthy then workers
  else
    match (["claude", "codex"].filter
        (fun t => containsCLIType workers t)).find? onPath with
    | none => workers
    | some fb =>
      workers.map (fun w => if (parseWorker w).1 == "gemini" then fb else w)

/-! ## Helper lemmas about the segment matcher -/

theorem leadsWith_iff (p : List Char) : ∀ s : List Char,
    leadsWith p s = true ↔ ∃ t, s = p ++ t := by
  induction p with
  | nil => intro s; simp [leadsWith]
  | cons a ps ih =>
    intro s
    cases s with
    | nil => simp [leadsWith]
    | cons c cs =>
      simp only [leadsWith, Bool.and_eq_true, beq_iff_eq, ih, List.cons_append,
        List.cons.injEq]
      constructor
      · rintro ⟨h1, t, h2⟩
        exact ⟨t, h1.symm, h2⟩
      · rintro ⟨t, h1, h2⟩
        exact ⟨h1.symm, t, h2⟩

theorem containsPat_iff (pat : List Char) : ∀ s : List Char,
    containsPat pat s = true ↔ ∃ l r, s = l ++ pat ++ r := by
  intro s
  induction s with
  | nil =>
    simp only [containsPat, leadsWith_iff]
    constructor
    · rintro ⟨t, ht⟩
      exact ⟨[], t, by simpa using ht⟩
    · rintro ⟨l, r, h⟩
      rcases List.append_eq_nil.mp h.symm with ⟨h12, hr⟩
      rcases List.append_eq_nil.mp h12 with ⟨hl, hp⟩
      exact ⟨[], by simp [hp]⟩
  | cons c cs ih =>
    simp only [containsPat, Bool.or_eq_true, leadsWith_iff, ih]
    constructor
    · rintro (⟨t, ht⟩ | ⟨l, r, h⟩)
      · exact ⟨[], t, by simpa using ht⟩
      · exact ⟨c :: l, r, by simp [h]⟩
    · rintro ⟨l, r, h⟩
      cases l with
      | nil => exact Or.inl ⟨r, by simpa using h⟩
      | cons a l =>
        simp only [List.cons_append, List.cons.injEq] at h
        exact Or.inr ⟨l, r, h.2⟩

theorem gapThen_iff (p2 : List Char) : ∀ (k : Nat) (s : List Char),
    gapThen p2 k s = true ↔
      ∃ g r, s = g ++ p2 ++ r ∧ g.length ≤ k ∧ ∀ c ∈ g, c ≠ '\n' := by
  intro k
  induction k with
  | zero =>
    intro s
    simp only [gapThen, leadsWith_iff]
    constructor
    · rintro ⟨t, ht⟩
      exact ⟨[], t, by simpa using ht, by simp, by simp⟩
    · rintro ⟨g, r, h, hlen, _⟩
      have hg : g = [] := List.length_eq_zero.mp (Nat.le_zero.mp hlen)
      subst hg
      exact ⟨r, by simpa using h⟩
  | succ k ih =>
    intro s
    cases s with
    | nil =>
      simp only [gapThen, Bool.or_eq_true, leadsWith_iff]
      constructor
      · rintro (⟨t, ht⟩ | h)
        · exact ⟨[], t, by simpa using ht, by simp, by simp⟩
        · simp at h
      · rintro ⟨g, r, h, hlen, _⟩
        rcases List.append_eq_nil.mp h.symm with ⟨h12, hr⟩
        rcases List.append_eq_nil.mp h12 with ⟨hg, hp⟩
        exact Or.inl ⟨[], by simp [hp]⟩
    | cons c cs =>
      simp only [gapThen, Bool.or_eq_true, Bool.and_eq_true, bne_iff_ne,
        leadsWith_iff, ih]
      constructor
      · rintro (⟨t, ht⟩ | ⟨hc, g, r, h, hlen, hnl⟩)
        · exact ⟨[], t, by simpa using ht, by simp, by simp⟩
        · refine ⟨c :: g, r, by simp [h], by simpa using hlen, ?_⟩
          intro x hx
          rcases List.mem_cons.mp hx with hx | hx
          · simpa [hx] using hc
          · exact hnl x hx
      · rintro ⟨g, r, h, hlen, hnl⟩
        cases g with
        | nil => exact Or.inl ⟨r, by simpa using h⟩
        | cons a g =>
          simp only [List.cons_append, List.cons.injEq] at h
          refine Or.inr ⟨?_, g, r, h.2, ?_, ?_⟩
          · rw [h.1]; exact hnl a (List.mem_cons_self a g)
          · simp only [List.length_cons] at hlen; omega
          · exact fun x hx => hnl x (List.mem_cons_of_mem a hx)

theorem seqMatch_iff (p1 p2 : List Char) (k : Nat) (hp1 : p1 ≠ []) :
    ∀ s : List Char,
    seqMatch p1 p2 k s = true ↔
      ∃ l g r, s = l ++ p1 ++ g ++ p2 ++ r ∧ g.length ≤ k ∧
        ∀ c ∈ g, c ≠ '\n' := by
  intro s
  induction s with
  | nil =>
    simp only [seqMatch, Bool.false_eq_true, false_iff]
    rintro ⟨l, g, r, h, _, _⟩
    rcases List.append_eq_nil.mp h.symm with ⟨h1, hr⟩
    rcases List.append_eq_nil.mp h1 with ⟨h2, hp2⟩
    rcases List.append_eq_nil.mp h2 with ⟨h3, hg⟩
    rcases List.append_eq_nil.mp h3 with ⟨hl, hp⟩
    exact hp1 hp
  | cons c cs ih =>
    simp only [seqMatch, Bool.or_eq_true, Bool.and_eq_true, leadsWith_iff, ih]
    constructor
    · rintro (⟨⟨t, ht⟩, hgap⟩ | ⟨l, g, r, h, hlen, hnl⟩)
      · rw [ht, List.drop_left] at hgap
        rcases (gapThen_iff p2 k t).mp hgap with ⟨g, r, hgr, hlen, hnl⟩
        exact ⟨[], g, r, by simp [ht, hgr], hlen, hnl⟩
      · exact ⟨c :: l, g, r, by simp [h], hlen, hnl⟩
    · rintro ⟨l, g, r, h, hlen, hnl⟩
      cases l with
      | nil =>
        refine Or.inl ⟨⟨g ++ p2 ++ r, by simpa using h⟩, ?_⟩
        have ht : c :: cs = p1 ++ (g ++ p2 ++ r) := by simpa using h
        rw [ht, List.drop_left]
        exact (gapThen_iff p2 k _).mpr ⟨g, r, by simp, hlen, hnl⟩
      | cons a l =>
        simp only [List.cons_append, List.cons.injEq] at h
        exact Or.inr ⟨l, g, r, h.2, hlen, hnl⟩

/-! ## Claim C1 -/

/-- Claim C1, counterexample: the claim requires the singular phrase
"usage limit" followed within 60 characters by "try again after" to
trigger detection, but the source regex requires the plural
"usage limits"; on this input the claim condition holds while HasError
returns false. -/
theorem hasError_claim_counterexample :
    claimTrigger "usage limit, try again after" ∧
      HasError "usage limit, try again after" = false := by
  constructor
  · exact Or.inr (Or.inl ⟨[], [',', ' '], [], by decide, by decide⟩)
  · decide

/-- Claim C1 (amended): HasError returns true exactly when the text
contains, case-insensitively, the phrase "exceeded your usage limit", or
the plural phrase "usage limits" followed within 60 characters (none of
them a newline) by "try again after", or "rate limit" followed within 60
characters (none a newline) by "retry after"; in particular it returns
false on the empty string and on any text containing none of the trigger
patterns. -/
theorem hasError_iff_spec (text : String) :
    HasError text = true ↔ usageLimitSpec text := by
  unfold HasError usageLimitSpec
  simp only [Bool.or_eq_true, containsPat_iff,
    seqMatch_iff _ _ _ (by decide : ("usage limits".toList : List Char) ≠ []),
    seqMatch_iff _ _ _ (by decide : ("rate limit".toList : List Char) ≠ [])]
  exact or_assoc

/-! ## Helper lemmas about the wait-seconds parser -/

theorem wrap64_eq_self (n : Int) (h0 : 0 ≤ n) (h1 : n < 2 ^ 63) :
    wrap64 n = n := by
  have e63 : (2 : Int) ^ 63 = 9223372036854775808 := by norm_num
  have e64 : (2 : Int) ^ 64 = 18446744073709551616 := by norm_num
  unfold wrap64
  rw [e63] at h1
  rw [e63, e64]
  rw [Int.emod_eq_of_lt (by omega) (by omega)]
  omega

theorem wrap64_eq_of_bounds (n : Int) (h0 : -2 ^ 63 ≤ n)
    (h1 : n < 2 ^ 63) : wrap64 n = n := by
  have e63 : (2 : Int) ^ 63 = 9223372036854775808 := by norm_num
  have e64 : (2 : Int) ^ 64 = 18446744073709551616 := by norm_num
  unfold wrap64
  rw [e63] at h0 h1
  rw [e63, e64]
  rw [Int.emod_eq_of_lt (by omega) (by omega)]
  omega

theorem atoi64_eq_of_le (ds : List Char)
    (h : (digitsVal ds : Int) ≤ intMax64) : atoi64 ds = (digitsVal ds : Int) := by
  unfold atoi64
  simp only [if_neg (not_lt.mpr h)]

theorem utcWaitSecs_none (tod : Nat) (t : List Char)
    (h : findUTC t = none) : utcWaitSecs tod t = none := by
  unfold utcWaitSecs
  rw [h]

theorem utcWaitSecs_eq (tod : Nat) (t dsH dsM : List Char)
    (hfind : findUTC t = some (dsH, dsM)) :
    utcWaitSecs tod t =
      if 0 < nextOccurrenceSecs (digitsVal dsH) (digitsVal dsM) tod
      then some (Int.ofNat (nextOccurrenceSecs (digitsVal dsH) (digitsVal dsM) tod))
      else none := by
  unfold utcWaitSecs nextOccurrenceSecs
  rw [hfind]
  by_cases hgt : (digitsVal dsH * 3600 + digitsVal dsM * 60) * nsPerSec > tod
  · simp only [hgt, if_true, ite_true]
  · simp only [hgt, if_false, ite_false]

theorem hoursVal_some (t ds : List Char) (h : findHours t = some ds) :
    hoursVal t = atoi64 ds := by
  unfold hoursVal
  rw [h]

theorem minsVal_some (t ds : List Char) (hpos : hoursVal t > 0)
    (h : findMins t = some ds) : minsVal t = atoi64 ds := by
  unfold minsVal
  rw [if_pos hpos, h]

theorem minsVal_none (t : List Char) (h : findMins t = none) :
    minsVal t = 0 := by
  unfold minsVal
  rw [h]
  split <;> rfl

theorem minsVal_of_hours_nonpos (t : List Char) (h : ¬hoursVal t > 0) :
    minsVal t = 0 := by
  unfold minsVal
  rw [if_neg h]

theorem extractWaitSecs_no_utc (tod : Nat) (text : String)
    (h : findUTC (fold text.toList) = none) :
    ExtractWaitSecs tod text = relWaitSecs (fold text.toList) := by
  simp only [ExtractWaitSecs, utcWaitSecs_none tod _ h]

/-! ## Claim C3 -/

/-- Claim C3, counterexample: the claim as stated promises X*3600 for
every `in X hours` with X ≥ 1, but the Go computation is 64-bit signed
arithmetic: at X = 9223372036854775806 the product wraps to -7200. -/
theorem relative_duration_counterexample :
    ExtractWaitSecs 0 "in 9223372036854775806 hours" = -7200 ∧
      (9223372036854775806 : Int) * 3600 ≠ -7200 := by
  exact ⟨by decide, by decide⟩

/-- Claim C3 (amended): for text with no "after HH:MM UTC" match whose
leftmost "in X hours" phrase has X ≥ 1, provided X*3600 + Y*60 does not
overflow a signed 64-bit integer, the result is X*3600 + Y*60 where Y is
the leftmost "Y minutes" value (0 when absent) — so "in 2 hours" gives
exactly 7200 and "in 1 hours 30 minutes" gives exactly 5400; if X equals
0 the relative-duration strategy does not match and the result is the
3600 fallback (so "in 0 hours 45 minutes" gives 3600, not 2700). -/
theorem relative_duration_spec (text : String) (tod : Nat) (dsH : List Char)
    (hutc : findUTC (fold text.toList) = none)
    (hhr : findHours (fold text.toList) = some dsH) :
    (1 ≤ digitsVal dsH →
      (digitsVal dsH : Int) * 3600 + (minutesPart text : Int) * 60 < 2 ^ 63 →
      ExtractWaitSecs tod text =
        (digitsVal dsH : Int) * 3600 + (minutesPart text : Int) * 60) ∧
    (digitsVal dsH = 0 → ExtractWaitSecs tod text = 3600) ∧
    ExtractWaitSecs tod "in 2 hours" = 7200 ∧
    ExtractWaitSecs tod "in 1 hours 30 minutes" = 5400 ∧
    ExtractWaitSecs tod "in 0 hours 45 minutes" = 3600 := by
  have hx0 : (0 : Int) ≤ (digitsVal dsH : Int) := Int.natCast_nonneg _
  have hrel := extractWaitSecs_no_utc tod text hutc
  refine ⟨?_, ?_, ?_, ?_, ?_⟩
  · intro hge hbound
    have hy0 : (0 : Int) ≤ (minutesPart text : Int) := Int.natCast_nonneg _
    have hxb : (digitsVal dsH : Int) ≤ intMax64 := by
      unfold intMax64; nlinarith
    have hposx : (0 : Int) < (digitsVal dsH : Int) := by exact_mod_cast hge
    have hpos : hoursVal (fold text.toList) > 0 := by
      rw [hoursVal_some _ _ hhr, atoi64_eq_of_le dsH hxb]
      exact hposx
    have hmv : minsVal (fold text.toList) = (minutesPart text : Int) := by
      cases hm : findMins (fold text.toList) with
      | none =>
        have hmp : minutesPart text = 0 := by unfold minutesPart; rw [hm]
        rw [minsVal_none _ hm, hmp]
        norm_num
      | some dsM =>
        have hmp : minutesPart text = digitsVal dsM := by
          unfold minutesPart; rw [hm]
        rw [hmp] at hy0 hbound
        have hyb : (digitsVal dsM : Int) ≤ intMax64 := by
          unfold intMax64; nlinarith
        rw [minsVal_some _ _ hpos hm, atoi64_eq_of_le dsM hyb, hmp]
    rw [hrel]
    unfold relWaitSecs
    rw [hmv, hoursVal_some _ _ hhr, atoi64_eq_of_le dsH hxb]
    rw [if_pos (by simp only [Bool.or_eq_true, decide_eq_true_eq]; exact Or.inl hposx)]
    exact wrap64_eq_self _ (by nlinarith) hbound
  · intro hz
    have hh0 : hoursVal (fold text.toList) = 0 := by
      rw [hoursVal_some _ _ hhr,
        atoi64_eq_of_le dsH (by rw [hz]; unfold intMax64; norm_num)]
      exact_mod_cast hz
    have hm0 := minsVal_of_hours_nonpos (fold text.toList) (by rw [hh0]; norm_num)
    rw [hrel]
    unfold relWaitSecs
    rw [hh0, hm0]
    norm_num
  · rw [extractWaitSecs_no_utc tod _ (by decide)]
    decide
  · rw [extractWaitSecs_no_utc tod _ (by decide)]
    decide
  · rw [extractWaitSecs_no_utc tod _ (by decide)]
    decide

/-! ## Claim C8 -/

/-- Claim C8: evaluation of the embedded code at the failing input.  The
parsed hour count 9223372036854775807 (int64 max) passes the `hours > 0`
guard, and `hours*3600` wraps around 64-bit two's complement to -3600, so
ExtractWaitSecs returns a negative number of seconds, contradicting the
always-positive contract. -/
theorem extract_wait_overflow_bug :
    ExtractWaitSecs 0 "in 9223372036854775807 hours" = -3600 := by decide

/-! ## Claim C10 -/

/-- Claim C10: a minutes-only duration is ignored — with no
"after HH:MM UTC" match and no hours phrase with X ≥ 1 (the leftmost
hours match is absent or has X = 0), any "N minutes" phrase leaves the
result at the 3600 fallback, never N*60 (for N ≠ 60, where the two would
coincide numerically). -/
theorem minutes_only_fallback (text : String) (tod : Nat) (dsM : List Char)
    (hutc : findUTC (fold text.toList) = none)
    (hmin : findMins (fold text.toList) = some dsM)
    (hhr : findHours (fold text.toList) = none ∨
      ∃ ds, findHours (fold text.toList) = some ds ∧ digitsVal ds = 0) :
    ExtractWaitSecs tod text = 3600 ∧
      (digitsVal dsM ≠ 60 →
        ExtractWaitSecs tod text ≠ (digitsVal dsM : Int) * 60) := by
  have hrel := extractWaitSecs_no_utc tod text hutc
  have h3600 : ExtractWaitSecs tod text = 3600 := by
    have hh0 : hoursVal (fold text.toList) = 0 := by
      rcases hhr with h | ⟨ds, h, hz⟩
      · unfold hoursVal
        rw [h]
      · rw [hoursVal_some _ _ h,
          atoi64_eq_of_le ds (by rw [hz]; unfold intMax64; norm_num)]
        exact_mod_cast hz
    have hm0 := minsVal_of_hours_nonpos (fold text.toList) (by rw [hh0]; norm_num)
    rw [hrel]
    unfold relWaitSecs
    rw [hh0, hm0]
    norm_num
  refine ⟨h3600, ?_⟩
  intro hne hc
  rw [h3600] at hc
  apply hne
  have : (digitsVal dsM : Int) = 60 := by omega
  exact_mod_cast this

/-! ## Claim C4 -/

/-- Claim C4: for text containing "after HH:MM UTC" (leftmost parse h:min
with h < 24, min < 60) and for every current UTC time of day tod (< 24h),
the result is the floor of the seconds from now to the next future
occurrence of that wall-clock time — today if still ahead, else tomorrow
— taking priority over the relative-duration strategy; and when that
computed delta is 0 the function falls through to the relative/fallback
block. -/
theorem utc_strategy_spec (text : String) (tod h m : Nat) (dsH dsM : List Char)
    (hfind : findUTC (fold text.toList) = some (dsH, dsM))
    (hh : digitsVal dsH = h) (hm : digitsVal dsM = m)
    (hh24 : h < 24) (hm60 : m < 60) (htod : tod < nsPerDay) :
    (0 < nextOccurrenceSecs h m tod →
      ExtractWaitSecs tod text = Int.ofNat (nextOccurrenceSecs h m tod)) ∧
    (nextOccurrenceSecs h m tod = 0 →
      ExtractWaitSecs tod text = relWaitSecs (fold text.toList)) := by
  have he := utcWaitSecs_eq tod (fold text.toList) dsH dsM hfind
  rw [hh, hm] at he
  constructor
  · intro hpos
    simp only [ExtractWaitSecs]
    rw [he, if_pos hpos]
  · intro hz
    simp only [ExtractWaitSecs]
    rw [he, if_neg (by omega)]

/-- Witness for relative_duration_spec at "in 1 hours 30 minutes",
tod = 0: X = 1, Y = 30, result 5400 = 1*3600 + 30*60. -/
theorem relative_duration_witness :
    ExtractWaitSecs 0 "in 1 hours 30 minutes" =
      (digitsVal ['1'] : Int) * 3600 +
        (minutesPart "in 1 hours 30 minutes" : Int) * 60 :=
  (relative_duration_spec "in 1 hours 30 minutes" 0 ['1'] (by decide)
      (by decide)).1 (by decide) (by decide)

/-- Witness for utc_strategy_spec: "try again after 14:00 UTC" at noon UTC
(tod = 43200e9 ns) yields the 7200-second delta to 14:00. -/
theorem utc_strategy_witness :
    ExtractWaitSecs 43200000000000 "try again after 14:00 UTC" =
      Int.ofNat (nextOccurrenceSecs 14 0 43200000000000) :=
  (utc_strategy_spec "try again after 14:00 UTC" 43200000000000 14 0
      ['1', '4'] ['0', '0'] (by decide) (by decide) (by decide) (by decide)
      (by decide) (by decide)).1 (by decide)

/-- Witness for minutes_only_fallback at "in 45 minutes": the result is
not 45*60 = 2700. -/
theorem minutes_only_witness :
    ExtractWaitSecs 0 "in 45 minutes" ≠ (digitsVal ['4', '5'] : Int) * 60 :=
  (minutes_only_fallback "in 45 minutes" 0 ['4', '5'] (by decide) (by decide)
      (Or.inl (by decide))).2 (by decide)

/-! ## Helper lemma about the watchdog run -/

theorem run_halted (cfg : Config) (n : Nat) (det : Bool) :
    ∀ l : List Input, run cfg n ⟨Phase.halted, det⟩ l = [] := by
  intro l
  induction l with
  | nil => rfl
  | cons i rest ih =>
    simp only [run, step, List.nil_append]
    exact ih

/-! ## Claim C2 -/

/-- Claim C2, counterexample: the resume keystroke is the raw configured
CLI type string, not the worker's resolved command line.  With the
configured type "gemini:gemini-2.0-flash", the resolved command for that
worker is "gemini --model gemini-2.0-flash" (cliCmdFor), yet the watchdog
sends "gemini:gemini-2.0-flash --continue". -/
theorem resume_keystroke_counterexample :
    (step ⟨30, 120, "gemini:gemini-2.0-flash", ""⟩ 1 ⟨Phase.waiting 0, true⟩
        ⟨false, none, 0, 0, true⟩).2 =
      [Action.logResume 1,
       Action.sendKeys "gemini:gemini-2.0-flash --continue",
       Action.setTitle "worker-1"] ∧
    cliCmdFor ⟨30, 120, "gemini:gemini-2.0-flash", ""⟩
        "gemini:gemini-2.0-flash" ++ " --continue" =
      "gemini --model gemini-2.0-flash --continue" ∧
    "gemini:gemini-2.0-flash --continue" ≠
      "gemini --model gemini-2.0-flash --continue" := by
  refine ⟨by decide, by decide, by decide⟩

/-- Claim C2 (amended): when the deadline has passed and the session still
exists, the Resuming → Running transition logs the resume, sends the
configured CLI type string (Config.CLIType) followed by " --continue" —
which differs from the worker's resolved command line whenever a model
variant or extra CLI flags are configured — restores the plain "worker-N"
label, and clears the detected flag. -/
theorem resume_transition_spec (cfg : Config) (n : Nat) (det : Bool)
    (d : Int) (i : Input) (hnd : ¬i.now < d) (hs : i.sessionAlive = true) :
    step cfg n ⟨Phase.waiting d, det⟩ i =
      (⟨Phase.polling, false⟩,
       [Action.logResume n,
        Action.sendKeys (cfg.cliType ++ " --continue"),
        Action.setTitle ("worker-" ++ toString n)]) := by
  simp [step, hnd, hs]

/-- Witness for resume_transition_spec at a concrete configuration. -/
theorem resume_transition_witness :
    step ⟨30, 120, "claude", ""⟩ 2 ⟨Phase.waiting 5, true⟩
        ⟨false, none, 9, 0, true⟩ =
      (⟨Phase.polling, false⟩,
       [Action.logResume 2, Action.sendKeys "claude --continue",
        Action.setTitle "worker-2"]) := by
  rw [resume_transition_spec ⟨30, 120, "claude", ""⟩ 2 true 5
    ⟨false, none, 9, 0, true⟩ (by decide) rfl]
  decide

/-! ## Claim C5 -/

/-- Fresh detection with the deadline arithmetic in range: when the
nanosecond total and the resulting instant fit in int64, all three wrap64
applications are the identity and the stored deadline is exactly now +
(waitSecs + ResumeBufferSec) seconds. -/
theorem detect_deadline (cfg : Config) (n : Nat) (i : Input)
    (content : String) (hc : i.cancelled = false)
    (hcap : i.capture = some content) (he : HasError content = true)
    (hp0 : -2 ^ 63 ≤ (ExtractWaitSecs i.tod content +
        cfg.resumeBufferSec) * 1000000000)
    (hp1 : (ExtractWaitSecs i.tod content + cfg.resumeBufferSec) *
        1000000000 < 2 ^ 63)
    (hn0 : -2 ^ 63 ≤ i.now + (ExtractWaitSecs i.tod content +
        cfg.resumeBufferSec) * 1000000000)
    (hn1 : i.now + (ExtractWaitSecs i.tod content +
        cfg.resumeBufferSec) * 1000000000 < 2 ^ 63) :
    (step cfg n ⟨Phase.polling, false⟩ i).1.phase =
      Phase.waiting (i.now +
        (ExtractWaitSecs i.tod content + cfg.resumeBufferSec) *
          1000000000) ∧
    (step cfg n ⟨Phase.polling, false⟩ i).1.detected = true := by
  have hs0 : -(2 : Int) ^ 63 ≤
      ExtractWaitSecs i.tod content + cfg.resumeBufferSec := by
    have e63 : (2 : Int) ^ 63 = 9223372036854775808 := by norm_num
    rw [e63] at hp0 hp1 ⊢
    omega
  have hs1 : ExtractWaitSecs i.tod content + cfg.resumeBufferSec <
      (2 : Int) ^ 63 := by
    have e63 : (2 : Int) ^ 63 = 9223372036854775808 := by norm_num
    rw [e63] at hp0 hp1 ⊢
    omega
  constructor
  · simp [step, hc, hcap, he]
    rw [wrap64_eq_of_bounds _ hs0 hs1, wrap64_eq_of_bounds _ hp0 hp1,
      wrap64_eq_of_bounds _ hn0 hn1]
  · simp [step, hc, hcap, he]

set_option maxRecDepth 4000 in
/-- Claim C5, counterexample: the deadline arithmetic wraps.  For the
parseable pane text "exceeded your usage limit in 2600000 hours" the
wait is 9360000000 seconds; with the 120-second buffer,
time.Duration(totalSecs) * time.Second overflows int64 and the stored
deadline (monotonic nanoseconds, here now = 0) lands at
-9086743953709551616 — about 288 years in the past — instead of the
claim's now + (waitSecs + buffer) seconds = 9360000120000000000 ns. -/
theorem deadline_overflow_counterexample :
    (step ⟨30, 120, "claude", ""⟩ 1 ⟨Phase.polling, false⟩
        ⟨false, some "exceeded your usage limit in 2600000 hours", 0, 0,
          true⟩).1.phase =
      Phase.waiting (-9086743953709551616) ∧
    (0 : Int) +
        (ExtractWaitSecs 0 "exceeded your usage limit in 2600000 hours" +
          120) * 1000000000 = 9360000120000000000 ∧
    (-9086743953709551616 : Int) ≠ 9360000120000000000 := by
  exact ⟨by decide, by decide, by decide⟩

/-- Claim C5 (amended): on detection the stored resume deadline is now
plus ExtractWaitSecs(text) plus ResumeBufferSec seconds, provided the
nanosecond total (waitSecs + buffer) * 1e9 and the resulting instant fit
in a signed 64-bit integer — the Go duration arithmetic wraps on
overflow, see the counterexample — and in particular waitSeconds 30 with
buffer 120 puts the deadline exactly 150 seconds ahead; the resume
keystroke is only ever emitted from the waiting phase once the deadline
has been reached with the session still alive; and a dead session at
that point makes the watchdog halt with no action at all. -/
theorem deadline_and_resume_guard :
    (∀ (cfg : Config) (n : Nat) (i : Input) (content : String),
        i.cancelled = false → i.capture = some content →
        HasError content = true →
        -2 ^ 63 ≤ (ExtractWaitSecs i.tod content +
            cfg.resumeBufferSec) * 1000000000 →
        (ExtractWaitSecs i.tod content + cfg.resumeBufferSec) *
            1000000000 < 2 ^ 63 →
        -2 ^ 63 ≤ i.now + (ExtractWaitSecs i.tod content +
            cfg.resumeBufferSec) * 1000000000 →
        i.now + (ExtractWaitSecs i.tod content + cfg.resumeBufferSec) *
            1000000000 < 2 ^ 63 →
        (step cfg n ⟨Phase.polling, false⟩ i).1.phase =
          Phase.waiting (i.now +
            (ExtractWaitSecs i.tod content + cfg.resumeBufferSec) *
              1000000000) ∧
        (step cfg n ⟨Phase.polling, false⟩ i).1.detected = true) ∧
    (∀ (s : WState) (i : Input) (cfg : Config) (n : Nat) (ks : String),
        Action.sendKeys ks ∈ (step cfg n s i).2 →
        ∃ d, s.phase = Phase.waiting d ∧ ¬i.now < d ∧
          i.sessionAlive = true) ∧
    (∀ (cfg : Config) (n : Nat) (det : Bool) (d : Int) (i : Input),
        ¬i.now < d → i.sessionAlive = false →
        step cfg n ⟨Phase.waiting d, det⟩ i = (⟨Phase.halted, det⟩, [])) ∧
    (∀ (cfg : Config) (n : Nat) (i : Input),
        cfg.resumeBufferSec = 120 → i.cancelled = false →
        i.capture = some "usage limits try again after 0:1 UTC" →
        i.tod = 30000000000 →
        -2 ^ 63 ≤ i.now + 150000000000 →
        i.now + 150000000000 < 2 ^ 63 →
        (step cfg n ⟨Phase.polling, false⟩ i).1.phase =
          Phase.waiting (i.now + 150000000000)) := by
  refine ⟨?_, ?_, ?_, ?_⟩
  · intro cfg n i content hc hcap he hp0 hp1 hn0 hn1
    exact detect_deadline cfg n i content hc hcap he hp0 hp1 hn0 hn1
  · intro s i cfg n ks hmem
    obtain ⟨ph, det⟩ := s
    cases ph with
    | halted => simp [step] at hmem
    | polling =>
      by_cases h1 : i.cancelled
      · simp [step, h1] at hmem
      · cases hcap : i.capture with
        | none => simp [step, h1, hcap] at hmem
        | some content =>
          by_cases h2 : (!det && HasError content) = true
          · simp [step, h1, hcap, h2] at hmem
          · simp [step, h1, hcap, h2] at hmem
    | waiting d =>
      by_cases h1 : i.now < d
      · by_cases h2 : i.cancelled <;> simp [step, h1, h2] at hmem
      · by_cases h3 : i.sessionAlive
        · exact ⟨d, rfl, h1, h3⟩
        · simp [step, h1, h3] at hmem
  · intro cfg n det d i h1 h2
    simp [step, h1, h2]
  · intro cfg n i hb hc hcap htod hn0 hn1
    have hx : ExtractWaitSecs i.tod
        "usage limits try again after 0:1 UTC" = 30 := by
      rw [htod]
      decide
    have h := detect_deadline cfg n i
      "usage limits try again after 0:1 UTC" hc hcap (by decide)
      (by rw [hx, hb]; norm_num) (by rw [hx, hb]; norm_num)
      (by rw [hx, hb]; linarith [hn0]) (by rw [hx, hb]; linarith [hn1])
    rw [h.1, hx, hb]
    norm_num

/-- Witness for deadline_and_resume_guard at a concrete detection input:
with now = 7 and the 30-second UTC delta plus the 120-second buffer, the
deadline lands at 7 + 150e9 nanoseconds. -/
theorem deadline_and_resume_witness :
    (step ⟨30, 120, "claude", ""⟩ 1 ⟨Phase.polling, false⟩
        ⟨false, some "usage limits try again after 0:1 UTC", 7,
          30000000000, true⟩).1.phase =
      Phase.waiting 150000000007 := by
  have h := deadline_and_resume_guard.1 ⟨30, 120, "claude", ""⟩ 1
    ⟨false, some "usage limits try again after 0:1 UTC", 7, 30000000000,
      true⟩ "usage limits try again after 0:1 UTC" rfl rfl (by decide)
    (by decide) (by decide) (by decide) (by decide)
  rw [h.1]
  decide

/-! ## Claim C6 -/

/-- Claim C6: when the cancellation signal is observed at a suspension
point — the interval select, or a 5-second tick taken while the deadline
is still ahead — the watchdog produces no further side effect at all on
any continuation of the run; in particular the continuation keystroke is
never sent after cancellation has been observed. -/
theorem cancellation_halts (cfg : Config) (n : Nat) (s : WState) (i : Input)
    (rest : List Input) (h : cancelObserved s i) :
    run cfg n s (i :: rest) = [] ∧
      ∀ ks, Action.sendKeys ks ∉ run cfg n s (i :: rest) := by
  obtain ⟨hc, hp⟩ := h
  obtain ⟨ph, det⟩ := s
  have hstep : step cfg n ⟨ph, det⟩ i = (⟨Phase.halted, det⟩, []) := by
    rcases hp with hp | ⟨d, hp, hlt⟩
    · simp only [WState.phase] at hp
      subst hp
      simp [step, hc]
    · simp only [WState.phase] at hp
      subst hp
      simp [step, hc, hlt]
  have hrun : run cfg n ⟨ph, det⟩ (i :: rest) = [] := by
    simp only [run, hstep, List.nil_append]
    exact run_halted cfg n det rest
  refine ⟨hrun, ?_⟩
  intro ks
  rw [hrun]
  exact List.not_mem_nil _

/-- Witness for cancellation_halts: a cancelled poll produces no actions
even though the next input would have shown a usage-limit text. -/
theorem cancellation_halts_witness :
    run ⟨30, 120, "claude", ""⟩ 1 ⟨Phase.polling, false⟩
      [⟨true, none, 0, 0, true⟩,
       ⟨false, some "exceeded your usage limit", 5, 0, true⟩] = [] :=
  (cancellation_halts ⟨30, 120, "claude", ""⟩ 1 ⟨Phase.polling, false⟩
      ⟨true, none, 0, 0, true⟩
      [⟨false, some "exceeded your usage limit", 5, 0, true⟩]
      ⟨rfl, Or.inl rfl⟩).1

/-! ## Claim C7 -/

/-- Claim C7: at most one usage-limit event is active per worker — while
the watchdog is in its wait, no step can log a second detection; a wait
tick that does not resume leaves the deadline and the whole state exactly
unchanged; and with the detected flag set, a poll that captures (any)
limit text again triggers nothing: no actions, no state change, no new
deadline. -/
theorem single_event_invariant :
    (∀ (cfg : Config) (n : Nat) (det : Bool) (d : Int) (i : Input)
        (w : Nat) (x y : Int),
        Action.logDetect w x y ∉ (step cfg n ⟨Phase.waiting d, det⟩ i).2) ∧
    (∀ (cfg : Config) (n : Nat) (det : Bool) (d : Int) (i : Input),
        i.now < d → i.cancelled = false →
        step cfg n ⟨Phase.waiting d, det⟩ i = (⟨Phase.waiting d, det⟩, [])) ∧
    (∀ (cfg : Config) (n : Nat) (i : Input) (content : String),
        i.cancelled = false → i.capture = some content →
        step cfg n ⟨Phase.polling, true⟩ i = (⟨Phase.polling, true⟩, [])) := by
  refine ⟨?_, ?_, ?_⟩
  · intro cfg n det d i w x y
    by_cases h1 : i.now < d
    · by_cases h2 : i.cancelled <;> simp [step, h1, h2]
    · by_cases h3 : i.sessionAlive <;> simp [step, h1, h3]
  · intro cfg n det d i h1 h2
    simp [step, h1, h2]
  · intro cfg n i content hc hcap
    simp [step, hc, hcap]

/-- Witness for single_event_invariant: an unexpired wait tick keeps the
deadline, and a detected-flagged poll over visible limit text is inert. -/
theorem single_event_witness :
    step ⟨30, 120, "claude", ""⟩ 1 ⟨Phase.waiting 100, true⟩
        ⟨false, none, 0, 0, true⟩ = (⟨Phase.waiting 100, true⟩, []) ∧
    step ⟨30, 120, "claude", ""⟩ 1 ⟨Phase.polling, true⟩
        ⟨false, some "exceeded your usage limit", 0, 0, true⟩ =
      (⟨Phase.polling, true⟩, []) :=
  ⟨single_event_invariant.2.1 ⟨30, 120, "claude", ""⟩ 1 true 100
      ⟨false, none, 0, 0, true⟩ (by decide) rfl,
   single_event_invariant.2.2 ⟨30, 120, "claude", ""⟩ 1
      ⟨false, some "exceeded your usage limit", 0, 0, true⟩
      "exceeded your usage limit" rfl rfl⟩

/-! ## Claim C9 -/

/-- Claim C9, counterexample: the claim requires the fallback type to be
itself configured ("configured-but-unrelated"); with only gemini
configured and claude on the path, the claim-side selector keeps the list
unchanged while the code replaces gemini with the unconfigured claude. -/
theorem fallback_selector_counterexample :
    normalizeGemini false (fun s => s == "claude") ["gemini"] = ["claude"] ∧
      claimNormalizeGemini false (fun s => s == "claude") ["gemini"] =
        ["gemini"] := by
  exact ⟨by decide, by decide⟩

/-- Claim C9 (amended): when gemini workers are configured and the
liveness probe fails, every worker whose CLI name is gemini — model
variants included — is replaced by the first of the fixed preference list
claude, codex found on the executable search path, whether or not that
type is itself configured; when neither is on the path the list is
returned unchanged (only a warning is printed), and when the probe
succeeds nothing changes.  The selector is a total function: it never
fails startup. -/
theorem fallback_selector_spec (onPath : String → Bool) (ws : List String)
    (hg : containsCLIType ws "gemini" = true) :
    (∀ fb, firstAvailableCLI onPath ["claude", "codex"] = some fb →
        normalizeGemini false onPath ws =
          ws.map (fun w => if (parseWorker w).1 == "gemini" then fb else w)) ∧
    (firstAvailableCLI onPath ["claude", "codex"] = none →
        normalizeGemini false onPath ws = ws) ∧
    normalizeGemini true onPath ws = ws := by
  refine ⟨?_, ?_, ?_⟩
  · intro fb hfb
    simp [normalizeGemini, hg, hfb]
  · intro hfb
    simp [normalizeGemini, hg, hfb]
  · simp [normalizeGemini, hg]

/-- Witness for fallback_selector_spec: with claude missing and codex on
the path, both the plain gemini worker and the model-variant gemini
worker are replaced by codex. -/
theorem fallback_selector_witness :
    normalizeGemini false (fun s => s == "codex")
        ["gemini:gemini-2.0-flash", "claude", "gemini"] =
      ["codex", "claude", "codex"] := by
  rw [(fallback_selector_spec (fun s => s == "codex")
      ["gemini:gemini-2.0-flash", "claude", "gemini"] (by decide)).1 "codex"
      (by decide)]
  decide

end Swarm
